import Mathlib

/-
Verification of the tree-filtering / cut-flow accounting framework of the
rootpy repository (src/rootpy/tree/filtering.py).

The embedding is shallow: each Python class becomes a Lean structure holding
its mutable attributes, and each method becomes a pure function from the old
state to the new state (plus its return value).  Python dictionaries keyed by
strings become association lists `List (String × Int)` (first binding wins on
lookup, matching the unique-key discipline of Python dicts); numeric values
(Python ints and the float tallies of the count functions) are modelled as
exact integers; fallible code returns `Except`.
-/

namespace RootpyFiltering

/-- Python dict lookup `m[k]` over an association list: the first binding for
`k` wins and `none` models a `KeyError`. -/
def lookupKV (m : List (String × Int)) (k : String) : Option Int :=
  match m with
  | [] => none
  | p :: rest => if p.1 = k then some p.2 else lookupKV rest k

/-- Python `m[k] += v` for a key that is present (`Filter.__init__` initialises
every count-function key before any increment happens); a binding whose key
differs is left untouched, and a missing key leaves the whole map unchanged. -/
def incr (m : List (String × Int)) (k : String) (v : Int) : List (String × Int) :=
  match m with
  | [] => []
  | p :: rest => (if p.1 = k then (p.1, p.2 + v) else p) :: incr rest k v

/-- The attributes of a `Filter` object (filtering.py, `Filter.__init__`).
`count_funcs` holds the user-supplied count functions (opaque callables from
an event to a numeric weight); `hooks` records how many hooks the filter
holds, since the hook callables themselves are opaque side effects. -/
structure Filter (E : Type) where
  name : String
  total : Int
  passing : Int
  count_funcs : List (String × (E → Int))
  count_funcs_total : List (String × Int)
  count_funcs_passing : List (String × Int)
  details : List (String × Int)
  hooks : Nat
  passthrough : Bool
  was_passed : Bool

/-- `Filter.__init__` with an explicit `name` argument: counters start at zero,
`count_funcs_total` and `count_funcs_passing` get a zero entry for every
count-function key, and `details` starts empty.  (The default-name branch of
the source, taken only when `name=None` is passed, is not needed by any
claim except through `defaultFilter` below.) -/
def mkFilter {E : Type} (name : String) (count_funcs : List (String × (E → Int)))
    (hooks : Nat) (passthrough : Bool) : Filter E :=
  { name := name
    total := 0
    passing := 0
    count_funcs := count_funcs
    count_funcs_total := count_funcs.map (fun p => (p.1, 0))
    count_funcs_passing := count_funcs.map (fun p => (p.1, 0))
    details := []
    hooks := hooks
    passthrough := passthrough
    was_passed := false }

/-- `Filter()` with no arguments: no count functions, so the name defaults to
the class name `Filter`. -/
def defaultFilter {E : Type} : Filter E := mkFilter ("Filter") [] 0 false

/-- The count-function loop of `Filter.passed`: for every registered count
function, evaluate it on the event and add the result to both the total and
the passing tally of that label. -/
def bumpBoth {E : Type} (e : E) : List (String × (E → Int)) →
    List (String × Int) → List (String × Int) →
    List (String × Int) × List (String × Int)
  | [], cft, cfp => (cft, cfp)
  | p :: rest, cft, cfp => bumpBoth e rest (incr cft p.1 (p.2 e)) (incr cfp p.1 (p.2 e))

/-- The count-function loop of `Filter.failed`: every count function is
evaluated on the event and added to the total tally only. -/
def bumpTotal {E : Type} (e : E) : List (String × (E → Int)) →
    List (String × Int) → List (String × Int)
  | [], cft => cft
  | p :: rest, cft => bumpTotal e rest (incr cft p.1 (p.2 e))

/-- `Filter.passed(event)`: increment `total` and `passing`, feed the event to
every count function (adding to both tallies), and set `was_passed`. -/
def Filter.passed {E : Type} (f : Filter E) (e : E) : Filter E :=
  { f with
    total := f.total + 1
    passing := f.passing + 1
    count_funcs_total := (bumpBoth e f.count_funcs f.count_funcs_total f.count_funcs_passing).1
    count_funcs_passing := (bumpBoth e f.count_funcs f.count_funcs_total f.count_funcs_passing).2
    was_passed := true }

/-- `Filter.failed(event)`: increment `total` only, feed the event to every
count function (adding to the total tallies only), and clear `was_passed`. -/
def Filter.failed {E : Type} (f : Filter E) (e : E) : Filter E :=
  { f with
    total := f.total + 1
    count_funcs_total := bumpTotal e f.count_funcs f.count_funcs_total
    was_passed := false }

/-- The two exceptions `Filter.add` can raise: the `ValueError` for different
names, and the `KeyError` raised by `right.details[detail]` when a key of
`left.details` is absent from `right.details`. -/
inductive AddError where
  | nameMismatch
  | keyError (k : String)
deriving DecidableEq

/-- The dict comprehension of `Filter.add`: iterate over the keys of
`left.details` in order, looking each key up in `right.details`; the first
missing key raises a `KeyError`. -/
def sumDetails (l r : List (String × Int)) : Except AddError (List (String × Int)) :=
  match l with
  | [] => .ok []
  | p :: rest =>
    match lookupKV r p.1 with
    | none => .error (.keyError p.1)
    | some w =>
      match sumDetails rest r with
      | .error err => .error err
      | .ok tail => .ok ((p.1, p.2 + w) :: tail)

/-- The value `sumDetails` produces when it succeeds: one entry per key of the
left operand, each summed with the right operand's value for that key. -/
def sumDetailsF (l r : List (String × Int)) : List (String × Int) :=
  match l with
  | [] => []
  | p :: rest => (p.1, p.2 + (lookupKV r p.1).getD 0) :: sumDetailsF rest r

/-- `Filter.add(left, right)` (a classmethod): raise on a name mismatch,
otherwise build a fresh `Filter()` and overwrite its name, total, passing and
details with the sums. -/
def Filter.add {E : Type} (left right : Filter E) : Except AddError (Filter E) :=
  if left.name ≠ right.name then .error .nameMismatch
  else
    match sumDetails left.details right.details with
    | .error err => .error err
    | .ok d =>
      .ok { (defaultFilter : Filter E) with
            name := left.name
            total := left.total + right.total
            passing := left.passing + right.passing
            details := d }

/-- The filter that `Filter.add` returns when it succeeds. -/
def addF {E : Type} (left right : Filter E) : Filter E :=
  { (defaultFilter : Filter E) with
    name := left.name
    total := left.total + right.total
    passing := left.passing + right.passing
    details := sumDetailsF left.details right.details }

/-- The serialized state record built by `Filter.__getstate__` and consumed by
`Filter.__setstate__`. -/
structure StateRecord where
  name : String
  total : Int
  passing : Int
  details : List (String × Int)
  count_funcs_total : List (String × Int)
  count_funcs_passing : List (String × Int)

/-- The value types that appear in the `__getstate__` dictionary. -/
inductive PyValue where
  | str (s : String)
  | int (n : Int)
  | dict (m : List (String × Int))
deriving DecidableEq

/-- `Filter.__getstate__` as a record. -/
def Filter.getstate {E : Type} (f : Filter E) : StateRecord :=
  { name := f.name
    total := f.total
    passing := f.passing
    details := f.details
    count_funcs_total := f.count_funcs_total
    count_funcs_passing := f.count_funcs_passing }

/-- `Filter.__getstate__` as the literal Python dictionary it returns, keys in
source order. -/
def Filter.getstateDict {E : Type} (f : Filter E) : List (String × PyValue) :=
  [(("name"), .str f.name),
   (("total"), .int f.total),
   (("passing"), .int f.passing),
   (("details"), .dict f.details),
   (("count_funcs_total"), .dict f.count_funcs_total),
   (("count_funcs_passing"), .dict f.count_funcs_passing)]

/-- `Filter.__setstate__`: overwrite exactly the six persisted attributes;
`count_funcs`, `hooks`, `passthrough` and `was_passed` are untouched. -/
def Filter.setstate {E : Type} (f : Filter E) (s : StateRecord) : Filter E :=
  { f with
    name := s.name
    total := s.total
    passing := s.passing
    details := s.details
    count_funcs_total := s.count_funcs_total
    count_funcs_passing := s.count_funcs_passing }

/-- Reconstruction of a Filter from a state record, as done in
`FilterList.merge`: `_f = Filter(); _f.__setstate__(state)`. -/
def restoreFilter (E : Type) (s : StateRecord) : Filter E :=
  Filter.setstate (defaultFilter : Filter E) s

/-- An `EventFilter`: a `Filter` together with its (user-overridden) `passes`
predicate.  `passes` returning `none` models the Python `None` (abstain)
sentinel. -/
structure EventFilter (E : Type) extends Filter E where
  passes : E → Option Bool

/-- Observable actions performed during one `EventFilter.__call__`, in order:
hook invocations and the `passed`/`failed` accounting calls. -/
inductive Action where
  | hookFired
  | passedCall
  | failedCall
deriving DecidableEq

/-- `EventFilter.__call__(event)`: passthrough runs the hooks and records a
pass; otherwise `passes(event)` is consulted, `None` (abstain) returns `False`
with no accounting at all, `True` runs the hooks then records a pass, and
`False` records a failure.  The result is (new filter state, returned boolean,
trace of actions in order). -/
def EventFilter.call {E : Type} (f : EventFilter E) (e : E) :
    EventFilter E × Bool × List Action :=
  if f.passthrough then
    ({ f with toFilter := f.toFilter.passed e }, true,
      List.replicate f.hooks Action.hookFired ++ [Action.passedCall])
  else
    match f.passes e with
    | none => (f, false, [])
    | some true =>
        ({ f with toFilter := f.toFilter.passed e }, true,
          List.replicate f.hooks Action.hookFired ++ [Action.passedCall])
    | some false =>
        ({ f with toFilter := f.toFilter.failed e }, false, [Action.failedCall])

/-- An `ObjectFilter`: a `Filter` together with its counting mode and its
(user-overridden) `filtered` function computing the retained subset. -/
structure ObjectFilter (E O : Type) extends Filter E where
  count_events : Bool
  filtered : E → List O → List O

/-- `ObjectFilter.__call__(event, collection)`: clear `was_passed`, bump
`total` by 1 (event mode) or by the pre-filter collection size (object mode),
apply `filtered` unless passthrough, and if the retained collection is
non-empty set `was_passed` and bump `passing` by 1 or by the retained size.
The retained collection is returned in all cases. -/
def ObjectFilter.call {E O : Type} (f : ObjectFilter E O) (e : E) (collection : List O) :
    ObjectFilter E O × List O :=
  let f1 : ObjectFilter E O := { f with was_passed := false }
  let f2 : ObjectFilter E O :=
    if f1.count_events then { f1 with total := f1.total + 1 }
    else { f1 with total := f1.total + (collection.length : Int) }
  let collection1 := if f2.passthrough then collection else f2.filtered e collection
  let f3 : ObjectFilter E O :=
    if collection1.length > 0 then
      let fw : ObjectFilter E O := { f2 with was_passed := true }
      if fw.count_events then { fw with passing := fw.passing + 1 }
      else { fw with passing := fw.passing + (collection1.length : Int) }
    else f2
  (f3, collection1)

/-- An element of a `FilterList`: either a live `Filter` or a raw serialized
state record (`type(f) is dict` in the source). -/
inductive FLElem (E : Type) where
  | filt (f : Filter E)
  | record (s : StateRecord)

/-- The auto-upgrade performed inside `FilterList.merge`: a raw state record
is rehydrated through `Filter(); __setstate__`, a live filter is used as is. -/
def FLElem.upgrade {E : Type} : FLElem E → Filter E
  | .filt f => f
  | .record s => restoreFilter E s

/-- `FilterList.merge(list1, list2)`: zip the two lists (Python `zip`
truncates at the shorter list), upgrade records to Filters, and add each pair;
the first failing `add` propagates its exception. -/
def mergeLists {E : Type} : List (FLElem E) → List (FLElem E) → Except AddError (List (Filter E))
  | f1 :: t1, f2 :: t2 =>
    match Filter.add f1.upgrade f2.upgrade with
    | .error err => .error err
    | .ok f =>
      match mergeLists t1 t2 with
      | .error err => .error err
      | .ok rest => .ok (f :: rest)
  | _, _ => .ok []

/-- `FilterList.total`: the first element's `total`, or 0 for an empty list. -/
def listTotal {E : Type} : List (Filter E) → Int
  | [] => 0
  | f :: _ => f.total

/-- `FilterList.passing`: the last element's `passing` (`self[-1]`), or 0 for
an empty list. -/
def listPassing {E : Type} : List (Filter E) → Int
  | [] => 0
  | f :: rest =>
    match rest with
    | [] => f.passing
    | g :: t => listPassing (g :: t)

/-- `EventFilterList.__call__(event)`: run the filters in order; the first one
returning `False` stops the loop and the whole call returns `False` with the
remaining filters untouched; if all return `True` the call returns `True`.
The result carries the updated filter states. -/
def eventFilterListCall {E : Type} : List (EventFilter E) → E → List (EventFilter E) × Bool
  | [], _ => ([], true)
  | f :: rest, e =>
    let t := f.call e
    if t.2.1 then
      let rr := eventFilterListCall rest e
      (t.1 :: rr.1, rr.2)
    else (t.1 :: rest, false)

/-- Operations available on an `EventFilter`: the inherited `passed` and
`failed` recorders and `EventFilter.__call__`. -/
inductive EFOp (E : Type) where
  | passedOp (e : E)
  | failedOp (e : E)
  | callOp (e : E)

/-- Run a sequence of operations on an `EventFilter`, left to right. -/
def EventFilter.runOps {E : Type} : EventFilter E → List (EFOp E) → EventFilter E
  | f, [] => f
  | f, op :: rest =>
    EventFilter.runOps
      (match op with
       | .passedOp e => { f with toFilter := f.toFilter.passed e }
       | .failedOp e => { f with toFilter := f.toFilter.failed e }
       | .callOp e => (f.call e).1) rest

/-- Operations available on an `ObjectFilter`: the inherited `passed` and
`failed` recorders and `ObjectFilter.__call__`. -/
inductive OFOp (E O : Type) where
  | passedOp (e : E)
  | failedOp (e : E)
  | callOp (e : E) (coll : List O)

/-- Run a sequence of operations on an `ObjectFilter`, left to right. -/
def ObjectFilter.runOps {E O : Type} : ObjectFilter E O → List (OFOp E O) → ObjectFilter E O
  | f, [] => f
  | f, op :: rest =>
    ObjectFilter.runOps
      (match op with
       | .passedOp e => { f with toFilter := f.toFilter.passed e }
       | .failedOp e => { f with toFilter := f.toFilter.failed e }
       | .callOp e coll => (f.call e coll).1) rest

/-- Run a sequence of `passed` (`true`) / `failed` (`false`) calls on a
Filter, left to right. -/
def runCalls {E : Type} : Filter E → List (Bool × E) → Filter E
  | f, [] => f
  | f, c :: rest => runCalls (if c.1 then f.passed c.2 else f.failed c.2) rest

/-- Pointwise domination of the passing tallies by the total tallies. -/
def cfLE (cft cfp : List (String × Int)) : Prop :=
  ∀ k vt vp, lookupKV cft k = some vt → lookupKV cfp k = some vp → vp ≤ vt

/-- The spec's Filter invariant: `passing <= total` and, for every
count-function label, `count_funcs_passing[k] <= count_funcs_total[k]`. -/
def Inv {E : Type} (f : Filter E) : Prop :=
  f.passing ≤ f.total ∧ cfLE f.count_funcs_total f.count_funcs_passing

/-- All keys of the left operand's details are present in the right operand's
details: exactly the condition under which `Filter.add` does not raise a
`KeyError`. -/
def detailsCompat {E : Type} (left right : Filter E) : Prop :=
  ∀ p ∈ left.details, (lookupKV right.details p.1).isSome

/-- A filter with the given cumulative statistics, as accumulated by a run. -/
def statFilter (n : String) (t p : Int) : Filter Unit :=
  { mkFilter n [] 0 false with total := t, passing := p }

/-- A filter with one count function returning the (negative) weight -1. -/
def cexNegFilter : Filter Unit := mkFilter ("f") [(("w"), fun _ => (-1 : Int))] 0 false

/-- An object filter whose user-supplied `filtered` returns a collection larger
than its input. -/
def cexInflate : ObjectFilter Unit Nat :=
  { toFilter := mkFilter ("g") [] 0 false
    count_events := false
    filtered := fun _ _ => [1, 2, 3] }

/-- Filter named A after a first run: total 10, passing 7 (spec scenario). -/
def filterA1 : Filter Unit := statFilter ("A") 10 7

/-- Filter named A after a second run: total 5, passing 3 (spec scenario). -/
def filterA2 : Filter Unit := statFilter ("A") 5 3

/-- A filter whose details carry a key `x` that its same-named partner
`cexRight` lacks. -/
def cexLeft : Filter Unit := { mkFilter ("A") [] 0 false with details := [(("x"), 1)] }

/-- A filter named A with empty details. -/
def cexRight : Filter Unit := mkFilter ("A") [] 0 false

/-- Left operand for the details-mismatch claim: details hold only `x`. -/
def wDetL : Filter Unit := { mkFilter ("D") [] 0 false with details := [(("x"), 1)] }

/-- Right operand for the details-mismatch claim: details hold `x` and an
extra key `y` absent on the left. -/
def wDetR : Filter Unit :=
  { mkFilter ("D") [] 0 false with details := [(("x"), 2), (("y"), 5)] }

/-- A non-passthrough event filter with two hooks whose predicate abstains. -/
def efAbstain : EventFilter Unit :=
  { toFilter := mkFilter ("abst") [] 2 false, passes := fun _ => none }

/-- Event filter A: accepts every event. -/
def efA : EventFilter Unit :=
  { toFilter := mkFilter ("A") [] 0 false, passes := fun _ => some true }

/-- Event filter B: rejects every event. -/
def efB : EventFilter Unit :=
  { toFilter := mkFilter ("B") [] 0 false, passes := fun _ => some false }

/-- Event filter C: accepts every event. -/
def efC : EventFilter Unit :=
  { toFilter := mkFilter ("C") [] 0 false, passes := fun _ => some true }

/-- Left operand with accumulated weighted tallies for the merge-loss claim. -/
def wTalL : Filter Unit :=
  { mkFilter ("A") [(("w"), fun _ => (1 : Int))] 0 false with
    total := 4, passing := 2
    count_funcs_total := [(("w"), 5)]
    count_funcs_passing := [(("w"), 3)] }

/-- Right operand with accumulated weighted tallies for the merge-loss claim. -/
def wTalR : Filter Unit :=
  { mkFilter ("A") [] 0 false with
    total := 9, passing := 6
    count_funcs_total := [(("w"), 7)]
    count_funcs_passing := [(("w"), 2)] }

/-- First three-stage cut-flow run (spec scenario for merge). -/
def runList1 : List (FLElem Unit) :=
  [.filt (statFilter ("cut1") 10 8),
   .filt (statFilter ("cut2") 8 6),
   .filt (statFilter ("cut3") 6 5)]

/-- Second three-stage cut-flow run; the middle element is a raw serialized
state record, exercising the auto-upgrade. -/
def runList2 : List (FLElem Unit) :=
  [.filt (statFilter ("cut1") 7 6),
   .record (Filter.getstate (statFilter ("cut2") 6 4)),
   .filt (statFilter ("cut3") 4 2)]

end RootpyFiltering

namespace RootpyFiltering

theorem lookup_incr_self (m : List (String × Int)) (k : String) (v : Int) :
    lookupKV (incr m k v) k = Option.map (fun x => x + v) (lookupKV m k) := by
  induction m with
  | nil => rfl
  | cons p rest ih =>
    by_cases h : p.1 = k
    · simp [incr, lookupKV, h]
    · simp [incr, lookupKV, h, ih]

theorem lookup_incr_other (m : List (String × Int)) (k k' : String) (v : Int)
    (h : k' ≠ k) : lookupKV (incr m k v) k' = lookupKV m k' := by
  induction m with
  | nil => rfl
  | cons p rest ih =>
    by_cases hp : p.1 = k
    · have hne : ¬ p.1 = k' := by rw [hp]; exact fun hh => h hh.symm
      simp [incr, lookupKV, hp, hne, Ne.symm h, ih]
    · by_cases hp' : p.1 = k'
      · simp [incr, lookupKV, hp, hp', h]
      · simp [incr, lookupKV, hp, hp', ih]

theorem cfLE_incr_incr {cft cfp : List (String × Int)} {k : String} {c : Int}
    (h : cfLE cft cfp) : cfLE (incr cft k c) (incr cfp k c) := by
  intro k' vt vp h1 h2
  by_cases hk : k' = k
  · subst hk
    rw [lookup_incr_self] at h1 h2
    cases ha : lookupKV cft k' with
    | none => rw [ha] at h1; simp at h1
    | some a =>
      cases hb : lookupKV cfp k' with
      | none => rw [hb] at h2; simp at h2
      | some b =>
        rw [ha] at h1; rw [hb] at h2
        simp at h1 h2
        have := h k' a b ha hb
        omega
  · rw [lookup_incr_other _ _ _ _ hk] at h1 h2
    exact h k' vt vp h1 h2

theorem cfLE_incr_left {cft cfp : List (String × Int)} {k : String} {c : Int}
    (hc : 0 ≤ c) (h : cfLE cft cfp) : cfLE (incr cft k c) cfp := by
  intro k' vt vp h1 h2
  by_cases hk : k' = k
  · subst hk
    rw [lookup_incr_self] at h1
    cases ha : lookupKV cft k' with
    | none => rw [ha] at h1; simp at h1
    | some a =>
      rw [ha] at h1; simp at h1
      have := h k' a vp ha h2
      omega
  · rw [lookup_incr_other _ _ _ _ hk] at h1
    exact h k' vt vp h1 h2

theorem cfLE_bumpBoth {E : Type} (e : E) (cfs : List (String × (E → Int))) :
    ∀ cft cfp, cfLE cft cfp →
      cfLE (bumpBoth e cfs cft cfp).1 (bumpBoth e cfs cft cfp).2 := by
  induction cfs with
  | nil => intro cft cfp h; exact h
  | cons p rest ih =>
    intro cft cfp h
    exact ih _ _ (cfLE_incr_incr h)

theorem cfLE_bumpTotal {E : Type} (e : E) (cfs : List (String × (E → Int))) :
    ∀ cft cfp, (∀ p ∈ cfs, 0 ≤ p.2 e) → cfLE cft cfp →
      cfLE (bumpTotal e cfs cft) cfp := by
  induction cfs with
  | nil => intro cft cfp _ h; exact h
  | cons p rest ih =>
    intro cft cfp hpos h
    exact ih _ _ (fun q hq => hpos q (List.mem_cons_of_mem p hq))
      (cfLE_incr_left (hpos p (List.mem_cons_self p rest)) h)

theorem lookup_map_zero {E : Type} (cfs : List (String × (E → Int))) (k : String) (v : Int)
    (h : lookupKV (cfs.map (fun p => (p.1, 0))) k = some v) : v = 0 := by
  induction cfs with
  | nil => simp [lookupKV] at h
  | cons p rest ih =>
    by_cases hp : p.1 = k <;> simp [lookupKV, hp] at h
    · omega
    · exact ih h

theorem Inv_mk {E : Type} (name : String) (cfs : List (String × (E → Int)))
    (hooks : Nat) (pt : Bool) : Inv (mkFilter name cfs hooks pt) := by
  constructor
  · simp [mkFilter]
  · intro k vt vp h1 h2
    have := lookup_map_zero cfs k vt h1
    have := lookup_map_zero cfs k vp h2
    omega

theorem Inv_passed {E : Type} {f : Filter E} (e : E) (h : Inv f) : Inv (f.passed e) := by
  refine ⟨?_, ?_⟩
  · have := h.1
    simp only [Filter.passed]
    omega
  · exact cfLE_bumpBoth e f.count_funcs f.count_funcs_total f.count_funcs_passing h.2

theorem Inv_failed {E : Type} {f : Filter E} (e : E)
    (hpos : ∀ p ∈ f.count_funcs, 0 ≤ p.2 e) (h : Inv f) : Inv (f.failed e) := by
  refine ⟨?_, ?_⟩
  · have := h.1
    simp only [Filter.failed]
    omega
  · exact cfLE_bumpTotal e f.count_funcs f.count_funcs_total f.count_funcs_passing hpos h.2

end RootpyFiltering

namespace RootpyFiltering

theorem sumDetails_ok_of_compat (l r : List (String × Int))
    (h : ∀ p ∈ l, (lookupKV r p.1).isSome) :
    sumDetails l r = .ok (sumDetailsF l r) := by
  induction l with
  | nil => rfl
  | cons p rest ih =>
    have hp := h p (List.mem_cons_self p rest)
    cases hw : lookupKV r p.1 with
    | none => rw [hw] at hp; simp at hp
    | some w =>
      have := ih (fun q hq => h q (List.mem_cons_of_mem p hq))
      simp [sumDetails, sumDetailsF, hw, this]

theorem sumDetails_err_of_missing (l r : List (String × Int))
    (h : ∃ p ∈ l, lookupKV r p.1 = none) :
    ∃ k, sumDetails l r = .error (.keyError k) := by
  induction l with
  | nil => simp at h
  | cons p rest ih =>
    cases hw : lookupKV r p.1 with
    | none => exact ⟨p.1, by simp [sumDetails, hw]⟩
    | some w =>
      obtain ⟨q, hq, hqn⟩ := h
      rcases List.mem_cons.mp hq with hq1 | hq2
      · rw [hq1] at hqn; rw [hqn] at hw; cases hw
      · obtain ⟨k, hk⟩ := ih ⟨q, hq2, hqn⟩
        exact ⟨k, by simp [sumDetails, hw, hk]⟩

theorem sumDetails_err_keyError (l r : List (String × Int)) (err : AddError)
    (h : sumDetails l r = .error err) : ∃ k, err = .keyError k := by
  induction l with
  | nil => simp [sumDetails] at h
  | cons p rest ih =>
    cases hw : lookupKV r p.1 with
    | none =>
      simp [sumDetails, hw] at h
      exact ⟨p.1, h.symm⟩
    | some w =>
      cases hs : sumDetails rest r with
      | error err2 =>
        simp only [sumDetails, hw, hs, Except.error.injEq] at h
        subst h
        exact ih hs
      | ok tail => simp [sumDetails, hw, hs] at h

theorem lookup_sumDetailsF_some (l r : List (String × Int)) (k : String) (v : Int)
    (h : lookupKV l k = some v) :
    lookupKV (sumDetailsF l r) k = some (v + (lookupKV r k).getD 0) := by
  induction l with
  | nil => simp [lookupKV] at h
  | cons p rest ih =>
    by_cases hp : p.1 = k
    · simp [lookupKV, hp] at h
      simp [sumDetailsF, lookupKV, hp, h]
    · simp [lookupKV, hp] at h
      simp [sumDetailsF, lookupKV, hp, ih h]

theorem lookup_sumDetailsF_none (l r : List (String × Int)) (k : String)
    (h : lookupKV l k = none) : lookupKV (sumDetailsF l r) k = none := by
  induction l with
  | nil => rfl
  | cons p rest ih =>
    by_cases hp : p.1 = k
    · simp [lookupKV, hp] at h
    · simp [lookupKV, hp] at h
      simp [sumDetailsF, lookupKV, hp, ih h]

theorem sumDetailsF_keys (l r : List (String × Int)) :
    (sumDetailsF l r).map Prod.fst = l.map Prod.fst := by
  induction l with
  | nil => rfl
  | cons p rest ih => simp [sumDetailsF, ih]

theorem add_eq_ok {E : Type} (left right : Filter E)
    (hname : left.name = right.name) (hc : detailsCompat left right) :
    Filter.add left right = .ok (addF left right) := by
  simp [Filter.add, hname, addF, sumDetails_ok_of_compat left.details right.details hc]

theorem add_nameMismatch_iff {E : Type} (left right : Filter E) :
    Filter.add left right = .error .nameMismatch ↔ left.name ≠ right.name := by
  constructor
  · intro h
    by_contra hne
    rw [Filter.add, if_neg (by simp [hne])] at h
    cases hs : sumDetails left.details right.details with
    | error err =>
      rw [hs] at h
      simp at h
      obtain ⟨k, hk⟩ := sumDetails_err_keyError left.details right.details err hs
      rw [hk] at h
      cases h
    | ok d => rw [hs] at h; cases h
  · intro h
    simp [Filter.add, h]

theorem add_err_of_missing {E : Type} (left right : Filter E)
    (hname : left.name = right.name)
    (h : ∃ p ∈ left.details, lookupKV right.details p.1 = none) :
    ∃ k, Filter.add left right = .error (.keyError k) := by
  obtain ⟨k, hk⟩ := sumDetails_err_of_missing left.details right.details h
  exact ⟨k, by simp [Filter.add, hname, hk]⟩

theorem add_ok_shape {E : Type} (left right f : Filter E)
    (h : Filter.add left right = .ok f) :
    left.name = right.name ∧ f = { (defaultFilter : Filter E) with
      name := left.name
      total := left.total + right.total
      passing := left.passing + right.passing
      details := (sumDetails left.details right.details).toOption.getD [] } := by
  by_cases hname : left.name = right.name
  · rw [Filter.add, if_neg (by simp [hname])] at h
    cases hs : sumDetails left.details right.details with
    | error err => rw [hs] at h; cases h
    | ok d =>
      rw [hs] at h
      refine ⟨hname, ?_⟩
      cases h
      simp [hs, Except.toOption]
  · rw [Filter.add, if_pos hname] at h
    cases h

end RootpyFiltering

namespace RootpyFiltering

theorem passed_total {E : Type} (f : Filter E) (e : E) : (f.passed e).total = f.total + 1 := rfl

theorem passed_passing {E : Type} (f : Filter E) (e : E) :
    (f.passed e).passing = f.passing + 1 := rfl

theorem passed_count_funcs {E : Type} (f : Filter E) (e : E) :
    (f.passed e).count_funcs = f.count_funcs := rfl

theorem failed_total {E : Type} (f : Filter E) (e : E) : (f.failed e).total = f.total + 1 := rfl

theorem failed_passing {E : Type} (f : Filter E) (e : E) :
    (f.failed e).passing = f.passing := rfl

theorem failed_count_funcs {E : Type} (f : Filter E) (e : E) :
    (f.failed e).count_funcs = f.count_funcs := rfl

theorem Inv_eventCall {E : Type} (f : EventFilter E) (e : E)
    (hpos : ∀ p ∈ f.count_funcs, 0 ≤ p.2 e) (h : Inv f.toFilter) :
    Inv ((f.call e).1).toFilter := by
  unfold EventFilter.call
  by_cases hpt : f.passthrough
  · simpa [hpt] using Inv_passed e h
  · simp only [hpt, if_neg (by simp : ¬ (false = true))]
    cases hp : f.passes e with
    | none => simpa [hpt] using h
    | some b =>
      cases b
      · simpa [hpt, hp] using Inv_failed e hpos h
      · simpa [hpt, hp] using Inv_passed e h

theorem eventCall_count_funcs {E : Type} (f : EventFilter E) (e : E) :
    ((f.call e).1).count_funcs = f.count_funcs := by
  unfold EventFilter.call
  by_cases hpt : f.passthrough
  · simp [hpt, passed_count_funcs]
  · cases hp : f.passes e with
    | none => simp [hpt, hp]
    | some b => cases b <;> simp [hpt, hp, passed_count_funcs, failed_count_funcs]

theorem objectCall_fields {E O : Type} (f : ObjectFilter E O) (e : E) (coll : List O) :
    (f.call e coll).2 = (if f.passthrough then coll else f.filtered e coll) ∧
    (f.call e coll).1.total = f.total + (if f.count_events then 1 else (coll.length : Int)) ∧
    (f.call e coll).1.passing = f.passing +
      (if 0 < (if f.passthrough then coll else f.filtered e coll).length then
        (if f.count_events then 1
         else ((if f.passthrough then coll else f.filtered e coll).length : Int))
       else 0) ∧
    (f.call e coll).1.was_passed =
      decide (0 < (if f.passthrough then coll else f.filtered e coll).length) ∧
    (f.call e coll).1.count_funcs = f.count_funcs ∧
    (f.call e coll).1.count_funcs_total = f.count_funcs_total ∧
    (f.call e coll).1.count_funcs_passing = f.count_funcs_passing ∧
    (f.call e coll).1.name = f.name ∧
    (f.call e coll).1.details = f.details ∧
    (f.call e coll).1.count_events = f.count_events ∧
    (f.call e coll).1.filtered = f.filtered ∧
    (f.call e coll).1.passthrough = f.passthrough := by
  rcases f with ⟨⟨n, t, p, cfs, cft, cfp, d, hk, pt, wp⟩, ce, fl⟩
  cases ce <;> cases pt <;>
    simp only [ObjectFilter.call] <;>
    split_ifs <;>
    simp_all

end RootpyFiltering

namespace RootpyFiltering

theorem Inv_objectCall {E O : Type} (f : ObjectFilter E O) (e : E) (coll : List O)
    (hfl : ∀ c : List O, (f.filtered e c).length ≤ c.length) (h : Inv f.toFilter) :
    Inv ((f.call e coll).1).toFilter := by
  obtain ⟨-, htot, hpass, -, -, hcft, hcfp, -⟩ := objectCall_fields f e coll
  constructor
  · rw [htot, hpass]
    have h1 := h.1
    have hlen : (if f.passthrough then coll else f.filtered e coll).length ≤ coll.length := by
      by_cases hpt : f.passthrough
      · simp [hpt]
      · simpa [hpt] using hfl coll
    by_cases hce : f.count_events <;>
      by_cases hne : 0 < (if f.passthrough then coll else f.filtered e coll).length <;>
        simp [hce, hne] <;> omega
  · rw [hcft, hcfp]
    exact h.2

theorem Inv_add {E : Type} (left right f : Filter E)
    (hl : Inv left) (hr : Inv right) (h : Filter.add left right = .ok f) : Inv f := by
  obtain ⟨-, hf⟩ := add_ok_shape left right f h
  subst hf
  constructor
  · have := hl.1
    have := hr.1
    simp only [defaultFilter, mkFilter]
    omega
  · intro k vt vp h1 h2
    simp [defaultFilter, mkFilter, lookupKV] at h1

theorem Inv_runOpsE {E : Type} (ops : List (EFOp E)) :
    ∀ f : EventFilter E, (∀ p ∈ f.count_funcs, ∀ e : E, 0 ≤ p.2 e) →
      Inv f.toFilter → Inv (EventFilter.runOps f ops).toFilter := by
  induction ops with
  | nil => intro f _ h; exact h
  | cons op rest ih =>
    intro f hpos h
    cases op with
    | passedOp e =>
      exact ih _ (by simpa [passed_count_funcs] using hpos) (Inv_passed e h)
    | failedOp e =>
      exact ih _ (by simpa [failed_count_funcs] using hpos)
        (Inv_failed e (fun p hp => hpos p hp e) h)
    | callOp e =>
      exact ih _ (by simpa [eventCall_count_funcs] using hpos)
        (Inv_eventCall f e (fun p hp => hpos p hp e) h)

theorem Inv_runOpsO {E O : Type} (ops : List (OFOp E O)) :
    ∀ f : ObjectFilter E O, (∀ p ∈ f.count_funcs, ∀ e : E, 0 ≤ p.2 e) →
      (∀ (e : E) (c : List O), (f.filtered e c).length ≤ c.length) →
      Inv f.toFilter → Inv (ObjectFilter.runOps f ops).toFilter := by
  induction ops with
  | nil => intro f _ _ h; exact h
  | cons op rest ih =>
    intro f hpos hfl h
    cases op with
    | passedOp e =>
      exact ih _ (by simpa [passed_count_funcs] using hpos) (by simpa using hfl)
        (Inv_passed e h)
    | failedOp e =>
      exact ih _ (by simpa [failed_count_funcs] using hpos) (by simpa using hfl)
        (Inv_failed e (fun p hp => hpos p hp e) h)
    | callOp e coll =>
      obtain ⟨-, -, -, -, hcf, -, -, -, -, -, hflt, -⟩ := objectCall_fields f e coll
      exact ih _ (by rw [hcf]; exact hpos) (by rw [hflt]; exact hfl)
        (Inv_objectCall f e coll (fun c => hfl e c) h)

end RootpyFiltering

namespace RootpyFiltering

theorem addF_name {E : Type} (l r : Filter E) : (addF l r).name = l.name := rfl

theorem addF_total {E : Type} (l r : Filter E) : (addF l r).total = l.total + r.total := rfl

theorem addF_passing {E : Type} (l r : Filter E) :
    (addF l r).passing = l.passing + r.passing := rfl

theorem addF_details {E : Type} (l r : Filter E) :
    (addF l r).details = sumDetailsF l.details r.details := rfl

theorem mergeLists_ok {E : Type} :
    ∀ l1 l2 : List (FLElem E),
      (∀ p ∈ l1.zip l2, p.1.upgrade.name = p.2.upgrade.name ∧
        detailsCompat p.1.upgrade p.2.upgrade) →
      mergeLists l1 l2 = .ok ((l1.zip l2).map (fun p => addF p.1.upgrade p.2.upgrade)) := by
  intro l1
  induction l1 with
  | nil => intro l2 _; rfl
  | cons f1 t1 ih =>
    intro l2 h
    cases l2 with
    | nil => rfl
    | cons f2 t2 =>
      have hhead := h (f1, f2) (by simp)
      have htail := ih t2 (fun p hp => h p (by simp [hp]))
      simp [mergeLists, add_eq_ok f1.upgrade f2.upgrade hhead.1 hhead.2, htail]

theorem listTotal_zip {E : Type} (l1 l2 : List (FLElem E)) (hlen : l1.length = l2.length) :
    listTotal ((l1.zip l2).map (fun p => addF p.1.upgrade p.2.upgrade)) =
      listTotal (l1.map FLElem.upgrade) + listTotal (l2.map FLElem.upgrade) := by
  cases l1 with
  | nil =>
    cases l2 with
    | nil => rfl
    | cons f2 t2 => simp at hlen
  | cons f1 t1 =>
    cases l2 with
    | nil => simp at hlen
    | cons f2 t2 => simp [listTotal, addF_total]

theorem listPassing_zip {E : Type} :
    ∀ l1 l2 : List (FLElem E), l1.length = l2.length →
      listPassing ((l1.zip l2).map (fun p => addF p.1.upgrade p.2.upgrade)) =
        listPassing (l1.map FLElem.upgrade) + listPassing (l2.map FLElem.upgrade) := by
  intro l1
  induction l1 with
  | nil =>
    intro l2 hlen
    cases l2 with
    | nil => rfl
    | cons f2 t2 => simp at hlen
  | cons f1 t1 ih =>
    intro l2 hlen
    cases l2 with
    | nil => simp at hlen
    | cons f2 t2 =>
      cases t1 with
      | nil =>
        cases t2 with
        | nil => simp [listPassing, addF_passing]
        | cons g2 s2 => simp at hlen
      | cons g1 s1 =>
        cases t2 with
        | nil => simp at hlen
        | cons g2 s2 =>
          have hlen2 : (g1 :: s1).length = (g2 :: s2).length := by simpa using hlen
          have := ih (g2 :: s2) hlen2
          simpa [listPassing] using this

theorem efl_true_iff {E : Type} :
    ∀ (l : List (EventFilter E)) (e : E),
      (eventFilterListCall l e).2 = true ↔ ∀ f ∈ l, (f.call e).2.1 = true := by
  intro l
  induction l with
  | nil => intro e; simp [eventFilterListCall]
  | cons f rest ih =>
    intro e
    by_cases ht : (f.call e).2.1 = true
    · simp [eventFilterListCall, ht, ih]
    · simp [eventFilterListCall, ht]

theorem efl_shortcircuit {E : Type} :
    ∀ (pre : List (EventFilter E)) (f : EventFilter E) (post : List (EventFilter E)) (e : E),
      (∀ g ∈ pre, (g.call e).2.1 = true) → (f.call e).2.1 = false →
      eventFilterListCall (pre ++ f :: post) e =
        (pre.map (fun g => (g.call e).1) ++ (f.call e).1 :: post, false) := by
  intro pre
  induction pre with
  | nil =>
    intro f post e _ hf
    simp [eventFilterListCall, hf]
  | cons g pre' ih =>
    intro f post e hpre hf
    have hg := hpre g (by simp)
    have := ih f post e (fun q hq => hpre q (by simp [hq])) hf
    simp [eventFilterListCall, hg, this]

theorem runCalls_counts {E : Type} :
    ∀ (calls : List (Bool × E)) (f : Filter E),
      (runCalls f calls).total = f.total + (calls.length : Int) ∧
      (runCalls f calls).passing =
        f.passing + ((calls.filter (fun c => c.1)).length : Int) := by
  intro calls
  induction calls with
  | nil => intro f; simp [runCalls]
  | cons c rest ih =>
    intro f
    cases hc : c.1 with
    | true =>
      obtain ⟨h1, h2⟩ := ih (f.passed c.2)
      constructor
      · rw [runCalls, if_pos (by simp [hc]), h1, passed_total]
        simp
        omega
      · rw [runCalls, if_pos (by simp [hc]), h2, passed_passing]
        simp [List.filter, hc]
        omega
    | false =>
      obtain ⟨h1, h2⟩ := ih (f.failed c.2)
      constructor
      · rw [runCalls, if_neg (by simp [hc]), h1, failed_total]
        simp
        omega
      · rw [runCalls, if_neg (by simp [hc]), h2, failed_passing]
        simp [List.filter, hc]

end RootpyFiltering

namespace RootpyFiltering

/-- C2: reconstructing a Filter from its serialized state record (restore
after serialize) yields a Filter whose name, total, passing, details,
count_funcs_total and count_funcs_passing exactly equal the original's, and
the record contains exactly the keys name, total, passing, details,
count_funcs_total, count_funcs_passing (the count-function callables are
excluded). -/
theorem c2_serialize_roundtrip {E : Type} (f : Filter E) :
    (restoreFilter E f.getstate).name = f.name ∧
    (restoreFilter E f.getstate).total = f.total ∧
    (restoreFilter E f.getstate).passing = f.passing ∧
    (restoreFilter E f.getstate).details = f.details ∧
    (restoreFilter E f.getstate).count_funcs_total = f.count_funcs_total ∧
    (restoreFilter E f.getstate).count_funcs_passing = f.count_funcs_passing ∧
    (f.getstateDict).map Prod.fst =
      [("name"), ("total"), ("passing"), ("details"),
       ("count_funcs_total"), ("count_funcs_passing")] ∧
    (restoreFilter E f.getstate).count_funcs = [] :=
  ⟨rfl, rfl, rfl, rfl, rfl, rfl, rfl, rfl⟩

/-- C6: starting from a fresh Filter, after any sequence of N passed/failed
calls, total equals N and passing equals the number of passed calls; hence
passing is at most total. -/
theorem c6_passed_failed_counts {E : Type} (name : String)
    (cfs : List (String × (E → Int))) (hooks : Nat) (pt : Bool)
    (calls : List (Bool × E)) :
    (runCalls (mkFilter name cfs hooks pt) calls).total = (calls.length : Int) ∧
    (runCalls (mkFilter name cfs hooks pt) calls).passing =
      ((calls.filter (fun c => c.1)).length : Int) ∧
    (runCalls (mkFilter name cfs hooks pt) calls).passing ≤
      (runCalls (mkFilter name cfs hooks pt) calls).total := by
  obtain ⟨h1, h2⟩ := runCalls_counts calls (mkFilter name cfs hooks pt)
  have hz : (mkFilter name cfs hooks pt : Filter E).total = 0 := rfl
  have hz2 : (mkFilter name cfs hooks pt : Filter E).passing = 0 := rfl
  rw [hz] at h1
  rw [hz2] at h2
  have hle : (calls.filter (fun c => c.1)).length ≤ calls.length :=
    List.length_filter_le _ _
  refine ⟨by omega, by omega, by omega⟩

/-- C9: one ObjectFilter invocation bumps total by 1 in event-count mode and
by the pre-filter collection size in object-count mode; passing grows by 1
(event mode) or by the retained size (object mode) exactly when the retained
subset is non-empty; and the retained subset is returned in all cases. -/
theorem c9_objectfilter_modes {E O : Type} (f : ObjectFilter E O) (e : E)
    (coll : List O) :
    (f.call e coll).2 = (if f.passthrough then coll else f.filtered e coll) ∧
    (f.call e coll).1.total =
      f.total + (if f.count_events then 1 else (coll.length : Int)) ∧
    (f.call e coll).1.passing = f.passing +
      (if 0 < (if f.passthrough then coll else f.filtered e coll).length then
        (if f.count_events then 1
         else ((if f.passthrough then coll else f.filtered e coll).length : Int))
       else 0) ∧
    (f.call e coll).1.was_passed =
      decide (0 < (if f.passthrough then coll else f.filtered e coll).length) := by
  obtain ⟨h1, h2, h3, h4, -⟩ := objectCall_fields f e coll
  exact ⟨h1, h2, h3, h4⟩

/-- C10: whenever Filter.add returns a Filter, that Filter's count_funcs,
count_funcs_total and count_funcs_passing are all empty, regardless of the
weighted tallies accumulated in the operands: the weighted auxiliary counters
are not summed and are lost on merge. -/
theorem c10_add_drops_count_funcs {E : Type} (left right f : Filter E)
    (h : Filter.add left right = .ok f) :
    f.count_funcs = [] ∧ f.count_funcs_total = [] ∧ f.count_funcs_passing = [] := by
  obtain ⟨-, hf⟩ := add_ok_shape left right f h
  subst hf
  exact ⟨rfl, rfl, rfl⟩

/-- Witness for C10 at operands that both carry non-empty weighted tallies. -/
theorem c10_add_drops_count_funcs_witness :
    wTalL.count_funcs_total = [(("w"), 5)] ∧
    wTalR.count_funcs_total = [(("w"), 7)] ∧
    ((addF wTalL wTalR).count_funcs = [] ∧
     (addF wTalL wTalR).count_funcs_total = [] ∧
     (addF wTalL wTalR).count_funcs_passing = []) :=
  ⟨rfl, rfl,
    c10_add_drops_count_funcs wTalL wTalR (addF wTalL wTalR)
      (add_eq_ok wTalL wTalR rfl
        (fun p hp => by simp [wTalL, mkFilter] at hp))⟩

/-- C7: a non-passthrough EventFilter invoked on an event where its passes
predicate abstains returns the stop signal and leaves the whole state
unchanged (no hook, no passed/failed recording); on a rejecting predicate it
records failed and stops; on an accepting predicate it fires the hooks and
records passed before returning the continue signal. -/
theorem c7_eventfilter_abstain {E : Type} (f : EventFilter E) (e : E)
    (hpt : f.passthrough = false) :
    (f.passes e = none →
       f.call e = (f, false, []) ∧
       (f.call e).1.total = f.total ∧
       (f.call e).1.passing = f.passing ∧
       (f.call e).1.count_funcs_total = f.count_funcs_total ∧
       (f.call e).1.count_funcs_passing = f.count_funcs_passing ∧
       (f.call e).1.details = f.details) ∧
    (f.passes e = some false →
       f.call e = ({ f with toFilter := f.toFilter.failed e }, false,
         [Action.failedCall])) ∧
    (f.passes e = some true →
       f.call e = ({ f with toFilter := f.toFilter.passed e }, true,
         List.replicate f.hooks Action.hookFired ++ [Action.passedCall])) := by
  unfold EventFilter.call
  rw [hpt]
  refine ⟨fun hp => ?_, fun hp => ?_, fun hp => ?_⟩ <;> simp [hp]

/-- Witness for C7: a concrete abstaining two-hook event filter. -/
theorem c7_eventfilter_abstain_witness :
    efAbstain.call () = (efAbstain, false, []) :=
  ((c7_eventfilter_abstain efAbstain () rfl).1 rfl).1

end RootpyFiltering

namespace RootpyFiltering

/-- C5: for same-named Filters, add fails with a KeyError-class error when
some key of left.details is absent from right.details; when every left key is
present in right, add succeeds, the result's details have exactly left's keys
(silently dropping keys present only in right), and each key maps to the sum
of the two operands' values. -/
theorem c5_details_key_mismatch {E : Type} (left right : Filter E)
    (hname : left.name = right.name) :
    ((∃ p ∈ left.details, lookupKV right.details p.1 = none) →
       ∃ k, Filter.add left right = .error (.keyError k)) ∧
    (detailsCompat left right →
       Filter.add left right = .ok (addF left right) ∧
       ((addF left right).details).map Prod.fst = left.details.map Prod.fst ∧
       (∀ k, lookupKV left.details k = none →
          lookupKV (addF left right).details k = none) ∧
       (∀ k v w, lookupKV left.details k = some v →
          lookupKV right.details k = some w →
          lookupKV (addF left right).details k = some (v + w))) := by
  refine ⟨fun h => add_err_of_missing left right hname h,
    fun hc => ⟨add_eq_ok left right hname hc, ?_, ?_, ?_⟩⟩
  · rw [addF_details]
    exact sumDetailsF_keys _ _
  · intro k hk
    rw [addF_details]
    exact lookup_sumDetailsF_none _ _ _ hk
  · intro k v w hv hw
    rw [addF_details]
    have := lookup_sumDetailsF_some left.details right.details k v hv
    simpa [hw] using this

/-- Witness for C5: concrete same-named filters where the right operand has
an extra key y that gets dropped and the shared key x gets summed. -/
theorem c5_details_key_mismatch_witness :
    Filter.add wDetL wDetR = .ok (addF wDetL wDetR) ∧
    lookupKV (addF wDetL wDetR).details ("y") = none ∧
    lookupKV (addF wDetL wDetR).details ("x") = some 3 := by
  have h := (c5_details_key_mismatch wDetL wDetR rfl).2
    (by intro p hp; simp [wDetL, mkFilter] at hp; subst hp; decide)
  refine ⟨h.1, h.2.2.1 ("y") (by decide), ?_⟩
  have := h.2.2.2 ("x") 1 2 (by decide) (by decide)
  simpa using this

/-- C8: an EventFilterList runs its filters strictly in order, short-circuits
at the first filter returning stop (leaving all later filters untouched) and
returns false; it returns true exactly when every filter returns continue; in
the concrete scenario with filters A (pass), B (reject), C (pass) the call
returns false and C's counters are unchanged. -/
theorem c8_eventfilterlist_short_circuit :
    (∀ (E : Type) (l : List (EventFilter E)) (e : E),
       (eventFilterListCall l e).2 = true ↔ ∀ f ∈ l, (f.call e).2.1 = true) ∧
    (∀ (E : Type) (pre : List (EventFilter E)) (f : EventFilter E)
       (post : List (EventFilter E)) (e : E),
       (∀ g ∈ pre, (g.call e).2.1 = true) → (f.call e).2.1 = false →
       eventFilterListCall (pre ++ f :: post) e =
         (pre.map (fun g => (g.call e).1) ++ (f.call e).1 :: post, false)) ∧
    ((eventFilterListCall [efA, efB, efC] ()).2 = false ∧
     (eventFilterListCall [efA, efB, efC] ()).1.drop 2 = [efC] ∧
     efC.total = 0) := by
  refine ⟨fun E l e => efl_true_iff l e,
    fun E pre f post e h1 h2 => efl_shortcircuit pre f post e h1 h2,
    rfl, rfl, rfl⟩

/-- Witness for C8: the short-circuit branch applied at the concrete scenario
where A passes and B rejects, leaving C untouched. -/
theorem c8_eventfilterlist_short_circuit_witness :
    eventFilterListCall ([efA] ++ efB :: [efC]) () =
      ([(efA.call ()).1] ++ (efB.call ()).1 :: [efC], false) :=
  c8_eventfilterlist_short_circuit.2.1 Unit [efA] efB [efC] ()
    (by intro g hg; simp only [List.mem_singleton] at hg; subst hg; rfl) rfl

end RootpyFiltering

namespace RootpyFiltering

/-- Counterexample to C3 as stated: two Filters that share the name A, yet
Filter.add raises a KeyError (because left's details key x is missing on the
right) instead of returning a new Filter. -/
theorem c3_add_counterexample :
    cexLeft.name = cexRight.name ∧
    Filter.add cexLeft cexRight = .error (.keyError ("x")) := by
  have h1 : sumDetails cexLeft.details cexRight.details =
      .error (.keyError ("x")) := rfl
  refine ⟨rfl, ?_⟩
  rw [Filter.add]
  rw [if_neg (by simp [cexLeft, cexRight, mkFilter]), h1]

/-- C3 amended: Filter.add fails with the name-mismatch error exactly when
the names differ; when the names agree and additionally every key of left's
details is present in right's details, it returns a new Filter with
name = left.name, total and passing summed. -/
theorem c3_add_name_and_sums {E : Type} (left right : Filter E) :
    (Filter.add left right = .error .nameMismatch ↔ left.name ≠ right.name) ∧
    (left.name = right.name → detailsCompat left right →
       ∃ f, Filter.add left right = .ok f ∧ f.name = left.name ∧
         f.total = left.total + right.total ∧
         f.passing = left.passing + right.passing) :=
  ⟨add_nameMismatch_iff left right,
    fun hname hc =>
      ⟨addF left right, add_eq_ok left right hname hc, rfl, rfl, rfl⟩⟩

/-- Witness for C3 at the spec scenario: adding Filter A (total 10, passing 7)
and Filter A (total 5, passing 3) yields total 15, passing 10, name A. -/
theorem c3_add_name_and_sums_witness :
    ∃ f : Filter Unit, Filter.add filterA1 filterA2 = .ok f ∧
      f.name = ("A") ∧ f.total = 15 ∧ f.passing = 10 := by
  obtain ⟨f, hok, hn, ht, hp⟩ := (c3_add_name_and_sums filterA1 filterA2).2 rfl
    (by intro p hp; simp [filterA1, statFilter, mkFilter] at hp)
  exact ⟨f, hok, hn, by rw [ht]; decide, by rw [hp]; decide⟩

/-- Counterexample to C4 as stated: two equal-length lists of same-named
Filters on which FilterList.merge raises a KeyError (details key sets
diverge) instead of returning a merged FilterList. -/
theorem c4_merge_counterexample :
    (FLElem.filt cexLeft).upgrade.name = (FLElem.filt cexRight).upgrade.name ∧
    mergeLists [FLElem.filt cexLeft] [FLElem.filt cexRight] =
      .error (.keyError ("x")) := by
  refine ⟨rfl, ?_⟩
  obtain ⟨-, hadd⟩ := c3_add_counterexample
  simp [mergeLists, FLElem.upgrade, hadd]

/-- C4 amended: merging two equal-length FilterLists whose elements (after
auto-upgrading serialized state records) are pairwise same-named with
compatible details key sets yields a list of the same length whose element at
each position is the pairwise add; its total is the sum of the two first
elements' totals and its passing the sum of the two last elements' passing. -/
theorem c4_merge_pairwise {E : Type} (l1 l2 : List (FLElem E))
    (hlen : l1.length = l2.length)
    (h : ∀ p ∈ l1.zip l2, p.1.upgrade.name = p.2.upgrade.name ∧
      detailsCompat p.1.upgrade p.2.upgrade) :
    mergeLists l1 l2 =
      .ok ((l1.zip l2).map (fun p => addF p.1.upgrade p.2.upgrade)) ∧
    ((l1.zip l2).map (fun p => addF p.1.upgrade p.2.upgrade)).length =
      l1.length ∧
    listTotal ((l1.zip l2).map (fun p => addF p.1.upgrade p.2.upgrade)) =
      listTotal (l1.map FLElem.upgrade) + listTotal (l2.map FLElem.upgrade) ∧
    listPassing ((l1.zip l2).map (fun p => addF p.1.upgrade p.2.upgrade)) =
      listPassing (l1.map FLElem.upgrade) + listPassing (l2.map FLElem.upgrade) := by
  refine ⟨mergeLists_ok l1 l2 h, ?_, listTotal_zip l1 l2 hlen,
    listPassing_zip l1 l2 hlen⟩
  rw [List.length_map, List.length_zip, hlen, min_self]

/-- Witness for C4 at the spec scenario: merging two 3-element runs of the
cuts cut1, cut2, cut3 (the second list holding one raw state record) yields
the pairwise sums with total 17 and passing 7. -/
theorem c4_merge_pairwise_witness :
    mergeLists runList1 runList2 =
      .ok ((runList1.zip runList2).map (fun p => addF p.1.upgrade p.2.upgrade)) ∧
    ((runList1.zip runList2).map (fun p => addF p.1.upgrade p.2.upgrade)).length = 3 ∧
    listTotal ((runList1.zip runList2).map (fun p => addF p.1.upgrade p.2.upgrade)) = 17 ∧
    listPassing ((runList1.zip runList2).map (fun p => addF p.1.upgrade p.2.upgrade)) = 7 := by
  have h := c4_merge_pairwise runList1 runList2 rfl ?_
  · exact ⟨h.1, h.2.1, by rw [h.2.2.1]; decide, by rw [h.2.2.2]; decide⟩
  · intro p hp
    simp only [runList1, runList2, List.zip_cons_cons, List.zip_nil_right,
      List.mem_cons, List.not_mem_nil, or_false] at hp
    rcases hp with rfl | rfl | rfl <;>
      exact ⟨rfl, by intro q hq; simp [statFilter, mkFilter, FLElem.upgrade,
        restoreFilter, Filter.setstate, Filter.getstate] at hq⟩

end RootpyFiltering

namespace RootpyFiltering

/-- Counterexample to C1 as stated: a Filter whose count function returns the
weight -1 violates count_funcs_passing[w] <= count_funcs_total[w] after one
failed call, and an ObjectFilter whose filtered returns a collection larger
than its (empty) input violates passing <= total after one call. -/
theorem c1_invariant_counterexample :
    ¬ Inv (cexNegFilter.failed ()) ∧
    ¬ Inv ((cexInflate.call () ([] : List Nat)).1.toFilter) := by
  constructor
  · intro h
    have h1 : lookupKV (cexNegFilter.failed ()).count_funcs_total ("w") =
        some (-1) := by decide
    have h2 : lookupKV (cexNegFilter.failed ()).count_funcs_passing ("w") =
        some 0 := by decide
    have := h.2 ("w") (-1) 0 h1 h2
    omega
  · intro h
    have h1 : ((cexInflate.call () ([] : List Nat)).1).toFilter.passing = 3 := by decide
    have h2 : ((cexInflate.call () ([] : List Nat)).1).toFilter.total = 0 := by decide
    have := h.1
    omega

/-- C1 amended: provided every registered count function returns non-negative
weights and (for ObjectFilters) the user-supplied filtered function never
returns a collection larger than its input, every sequence of passed, failed,
EventFilter call and ObjectFilter call operations on a freshly constructed
filter preserves the invariant passing <= total together with
count_funcs_passing[k] <= count_funcs_total[k] for every label k, and the
invariant also holds for the result of any successful Filter.add of two
filters satisfying it. -/
theorem c1_counters_invariant :
    (∀ (E : Type) (name : String) (cfs : List (String × (E → Int)))
       (hooks : Nat) (pt : Bool) (passes : E → Option Bool)
       (ops : List (EFOp E)),
       (∀ p ∈ cfs, ∀ e : E, 0 ≤ p.2 e) →
       Inv (EventFilter.runOps
         { toFilter := mkFilter name cfs hooks pt, passes := passes } ops).toFilter) ∧
    (∀ (E O : Type) (name : String) (cfs : List (String × (E → Int)))
       (hooks : Nat) (pt ce : Bool) (fl : E → List O → List O)
       (ops : List (OFOp E O)),
       (∀ p ∈ cfs, ∀ e : E, 0 ≤ p.2 e) →
       (∀ (e : E) (c : List O), (fl e c).length ≤ c.length) →
       Inv (ObjectFilter.runOps
         { toFilter := mkFilter name cfs hooks pt, count_events := ce,
           filtered := fl } ops).toFilter) ∧
    (∀ (E : Type) (l r f : Filter E),
       Inv l → Inv r → Filter.add l r = .ok f → Inv f) := by
  refine ⟨?_, ?_, fun E l r f hl hr h => Inv_add l r f hl hr h⟩
  · intro E name cfs hooks pt passes ops hpos
    exact Inv_runOpsE ops _ hpos (Inv_mk name cfs hooks pt)
  · intro E O name cfs hooks pt ce fl ops hpos hfl
    exact Inv_runOpsO ops _ hpos hfl (Inv_mk name cfs hooks pt)

/-- Witness for C1 at a concrete event filter with a non-negative count
function, run through a call, a failed and a passed operation. -/
theorem c1_counters_invariant_witness :
    Inv (EventFilter.runOps
      { toFilter := mkFilter ("ef") [(("w"), fun _ => (2 : Int))] 0 false
        passes := fun _ => some true }
      [EFOp.callOp (), EFOp.failedOp (), EFOp.passedOp ()]).toFilter :=
  c1_counters_invariant.1 Unit ("ef") [(("w"), fun _ => (2 : Int))] 0 false
    (fun _ => some true) [EFOp.callOp (), EFOp.failedOp (), EFOp.passedOp ()]
    (by
      intro p hp e
      simp only [List.mem_singleton] at hp
      subst hp
      cases e
      decide)

end RootpyFiltering
